import Mathlib

/-!
Verification development for the asphalt repository.

The development shallowly embeds the two central modules:

* `Asphalt` models `asphalt/core/context.py`: `ResourceContainer`,
  `Context` with its resource/factory tables, context attributes,
  teardown callbacks, `add_resource`, `add_resource_factory`,
  `get_resource`, `request_resource` and `close`.
  The Python heap of parent-linked `Context` objects is modelled as a
  `World`: a list of context states indexed by context id, with an
  appended event log recording every `resource_added` dispatch.
  Resource values are modelled as natural numbers; a factory callback is
  modelled as a callback id interpreted by an environment
  `fenv : Nat → Nat → Nat` mapping (callback id, requesting context id)
  to the produced value; the runtime type of a value (used by
  `add_resource` when `types` is omitted) is modelled by an environment
  `tyOf : Nat → Nat`.

* `AsphaltComponent` models `src/asphalt/core/_component.py`:
  the start pass `_start_component` (as a trace semantics over component
  trees, with true interleaving of sibling subtrees) and
  `ComponentContext.add_resource` / `add_resource_factory`
  (name defaulting and propagation to the parent context).
-/

namespace Asphalt

/-- Association list lookup with decidable key equality (models Python
`dict.get`: the tables never hold duplicate keys along reachable states,
and lookup returns the first binding). -/
def alookup {α β : Type} [DecidableEq α] (k : α) : List (α × β) → Option β
  | [] => none
  | (k', v) :: rest => if k' = k then some v else alookup k rest

/-- Association list update (models Python `dict[k] = v`): replaces the
first binding of `k`, or appends a new binding. -/
def setKey {α β : Type} [DecidableEq α] (k : α) (v : β) : List (α × β) → List (α × β)
  | [] => [(k, v)]
  | (k', v') :: rest => if k' = k then (k, v) :: rest else (k', v') :: setKey k v rest

/-- Error taxonomy of `context.py`, by exception class:
`ValueError`/`TypeError` validation failures, `ResourceConflict`, and
`RuntimeError` raised by `Context._check_closed`. -/
inductive Err : Type
  | valueError
  | resourceConflict
  | stateError
deriving DecidableEq

/-- Model of `ResourceContainer` (`context.py` lines 22-48):
`value_or_factory` holds the resource value, or the factory callback id
when `is_factory` is true. -/
structure RC : Type where
  value_or_factory : Nat
  types : List Nat
  name : String
  context_attr : Option String
  is_factory : Bool
deriving DecidableEq

/-- Model of the per-object state of one `Context` instance:
`_parent` (by context id), `_resources`, `_resource_factories`,
`_resource_factories_by_context_attr`, the instance attributes created by
`setattr(self, context_attr, value)` in `add_resource`, the
`_teardown_callbacks` list (callback id, `pass_exception`), and
`_closed`. -/
structure CtxState : Type where
  parent : Option Nat := none
  resources : List ((Nat × String) × RC) := []
  factories : List ((Nat × String) × RC) := []
  factoriesByAttr : List (String × RC) := []
  attrs : List (String × Nat) := []
  teardowns : List (Nat × Bool) := []
  closed : Bool := false
deriving DecidableEq

/-- The heap of `Context` objects, indexed by context id, together with
the log of `resource_added` dispatches (source context id, container). -/
structure World : Type where
  ctxs : List CtxState
  events : List (Nat × RC) := []
deriving DecidableEq

/-- State of the context with the given id (out-of-range ids read as a
fresh empty context; theorems only use ids of allocated contexts). -/
def World.ctx (w : World) (cid : Nat) : CtxState :=
  w.ctxs.getD cid {}

/-- Replace the state of one context. -/
def updCtx (w : World) (cid : Nat) (f : CtxState → CtxState) : World :=
  { w with ctxs := w.ctxs.set cid (f (w.ctx cid)) }

/-- Model of `resource_name_re.fullmatch(name)` with
`resource_name_re = re.compile(r'\w+')`: a nonempty string of word
characters. -/
def validName (s : String) : Bool :=
  !s.data.isEmpty && s.data.all (fun c => c.isAlphanum || c = '_')

/-- Model of `Context.context_chain` (`context.py` lines 145-154): the
chain from the context toward the root, by repeated `parent` steps.
The recursion is bounded by explicit fuel; `chain` supplies enough fuel
for every world whose parent links are acyclic (in particular every
world built by allocating children after their parents). -/
def chainAux (w : World) : Nat → Nat → List Nat
  | 0, _ => []
  | fuel + 1, cid =>
    cid :: (match (w.ctx cid).parent with
      | none => []
      | some p => chainAux w fuel p)

/-- The context chain of `cid`, self first, root last. -/
def chain (w : World) (cid : Nat) : List Nat :=
  chainAux w (w.ctxs.length + 1) cid

/-- The validation sequence of `Context.add_resource` (`context.py`
lines 241-253), in source order: `value` must not be `None`, `name` must
be a well-formed identifier, `context_attr` must not collide with an
existing attribute, and no `(type, name)` pair may already be
directly registered on this node; returns the first failure. -/
def addResourceErr (w : World) (cid : Nat) (value : Option Nat) (name : String)
    (cattr : Option String) (types : List Nat) : Option Err :=
  if value = none then some .valueError
  else if !validName name then some .valueError
  else if (match cattr with
      | some a => (alookup a (w.ctx cid).attrs).isSome
      | none => false) then some .resourceConflict
  else if types.any (fun t => (alookup (t, name) (w.ctx cid).resources).isSome) then
    some .resourceConflict
  else none

/-- The mutations of a successful `Context.add_resource` (`context.py`
lines 255-263): store the container under every requested type, bind the
context attribute when given, and dispatch `resource_added`. -/
def addResourceCommit (w : World) (cid : Nat) (v : Nat) (name : String)
    (cattr : Option String) (types : List Nat) : World :=
  let rc : RC := ⟨v, types, name, cattr, false⟩
  let w1 := types.foldl
    (fun wa t => updCtx wa cid
      (fun st => { st with resources := setKey (t, name) rc st.resources })) w
  let w2 := match cattr with
    | some a => updCtx w1 cid (fun st => { st with attrs := setKey a v st.attrs })
    | none => w1
  { w2 with events := w2.events ++ [(cid, rc)] }

/-- Model of `Context.add_resource` (`context.py` lines 219-264):
normalize `types` (defaulting to the runtime type `vty` of the value),
run the validation sequence — every check precedes every mutation, as in
the source, so a failure leaves the world untouched — and on success
perform the mutations and dispatch. -/
def addResource (w : World) (cid : Nat) (value : Option Nat) (vty : Nat)
    (name : String) (cattr : Option String) (types0 : List Nat) :
    World × Except Err RC :=
  let types := if types0.isEmpty then [vty] else types0
  match addResourceErr w cid value name cattr types with
  | some e => (w, .error e)
  | none =>
    (addResourceCommit w cid (value.getD 0) name cattr types,
     .ok ⟨value.getD 0, types, name, cattr, false⟩)

/-- The validation sequence of `Context.add_resource_factory`
(`context.py` lines 292-312), in source order: `name` must be a
well-formed identifier, `types` must be nonempty, `context_attr` must
not collide with an existing factory alias, and no factory may already
be registered under any `(type, name)` pair on this node; returns the
first failure.  The coroutine-function check is not modelled: every
modelled callback is a plain function. -/
def addFactoryErr (w : World) (cid : Nat) (name : String) (cattr : Option String)
    (types : List Nat) : Option Err :=
  if !validName name then some .valueError
  else if types.isEmpty then some .valueError
  else if (match cattr with
      | some a => (alookup a (w.ctx cid).factoriesByAttr).isSome
      | none => false) then some .resourceConflict
  else if types.any (fun t => (alookup (t, name) (w.ctx cid).factories).isSome) then
    some .resourceConflict
  else none

/-- The mutations of a successful `Context.add_resource_factory`
(`context.py` lines 314-323): store the container in `_resource_factories`
under every type, record the factory alias when given, and dispatch
`resource_added`. -/
def addFactoryCommit (w : World) (cid : Nat) (fid : Nat) (name : String)
    (cattr : Option String) (types : List Nat) : World :=
  let rc : RC := ⟨fid, types, name, cattr, true⟩
  let w1 := types.foldl
    (fun wa t => updCtx wa cid
      (fun st => { st with factories := setKey (t, name) rc st.factories })) w
  let w2 := match cattr with
    | some a => updCtx w1 cid
        (fun st => { st with factoriesByAttr := setKey a rc st.factoriesByAttr })
    | none => w1
  { w2 with events := w2.events ++ [(cid, rc)] }

/-- Model of `Context.add_resource_factory` (`context.py` lines
266-324): run the validation sequence — every check precedes every
mutation, as in the source — and on success perform the mutations and
dispatch. -/
def addResourceFactory (w : World) (cid : Nat) (fid : Nat) (types : List Nat)
    (name : String) (cattr : Option String) : World × Except Err RC :=
  match addFactoryErr w cid name cattr types with
  | some e => (w, .error e)
  | none => (addFactoryCommit w cid fid name cattr types, .ok ⟨fid, types, name, cattr, true⟩)

instance {ε α : Type} [DecidableEq ε] [DecidableEq α] : DecidableEq (Except ε α) :=
  fun a b =>
    match a, b with
    | .ok x, .ok y =>
      if h : x = y then .isTrue (by rw [h]) else .isFalse (by intro hc; cases hc; exact h rfl)
    | .error x, .error y =>
      if h : x = y then .isTrue (by rw [h]) else .isFalse (by intro hc; cases hc; exact h rfl)
    | .ok _, .error _ => .isFalse (by intro hc; cases hc)
    | .error _, .ok _ => .isFalse (by intro hc; cases hc)

/-- Result of `Context.get_resource`: the world after the call (a tier-2
hit materializes a value on the requesting context), the returned value
(or the exception propagated out of `generate_value`), and the list of
factory-callback invocations performed, as (callback id, requesting
context id) pairs. -/
structure GetRes : Type where
  world : World
  result : Except Err (Option Nat)
  invoked : List (Nat × Nat)
deriving DecidableEq

/-- Model of `Context.get_resource` (`context.py` lines 342-366) with
`ResourceContainer.generate_value` (lines 44-48) inlined at its only
call site: tier 1 reads `self._resources[key]`; tier 2 walks the chain
for the first `_resource_factories[key]` hit and, when found, invokes the
callback on the requesting context and publishes the value there via
`add_resource(value, rc.name, rc.context_attr, rc.types)`; tier 3 walks
the chain for the first `_resources[key]` hit. -/
def getResource (fenv : Nat → Nat → Nat) (tyOf : Nat → Nat) (w : World)
    (cid : Nat) (ty : Nat) (name : String) : GetRes :=
  let key := (ty, name)
  match alookup key (w.ctx cid).resources with
  | some rc => ⟨w, .ok (some rc.value_or_factory), []⟩
  | none =>
    match (chain w cid).findSome? (fun c => alookup key (w.ctx c).factories) with
    | some rc =>
      let v := fenv rc.value_or_factory cid
      let r := addResource w cid (some v) (tyOf v) rc.name rc.context_attr rc.types
      match r.2 with
      | .ok _ => ⟨r.1, .ok (some v), [(rc.value_or_factory, cid)]⟩
      | .error e => ⟨r.1, .error e, [(rc.value_or_factory, cid)]⟩
    | none =>
      ⟨w, .ok (((chain w cid).findSome? (fun c => alookup key (w.ctx c).resources)).map
        (fun rc => rc.value_or_factory)), []⟩

/-- Model of `Context.close` (`context.py` lines 179-203): fail with
`RuntimeError` when already closed; otherwise set `_closed`, drop the
teardown list, and run the callbacks newest-first.  The call sequence is
returned as records (callback id, argument passed when `pass_exception`,
whether the callback raised under `cbRaises`); a raising callback is
caught and logged, so it still produces a record and the iteration
continues. -/
def close (cbRaises : Nat → Bool) (w : World) (cid : Nat) (exc : Option Nat) :
    World × Except Err (List (Nat × Option Nat × Bool)) :=
  if (w.ctx cid).closed then (w, .error .stateError)
  else
    let records := (w.ctx cid).teardowns.reverse.map
      (fun cb => (cb.1, if cb.2 then exc else none, cbRaises cb.1))
    (updCtx w cid (fun st => { st with closed := true, teardowns := [] }), .ok records)

/-- Modelled from the spec (claim C1 refinement target), following the
spec's words: "three-tier, ordered lookup performed without suspension:
(1) a directly-stored resource on this node; (2) the nearest
ancestor-or-self node (walking from self toward the root) holding a
matching factory — if found, materialize via `generate_value(self)` and
return, stopping at the first match; (3) the nearest ancestor-or-self
node holding a matching resource", amended so that a materialization
whose internal resource publication conflicts with the requesting
context surfaces that error instead of returning the value. -/
def getResourceSpecValue (fenv : Nat → Nat → Nat) (tyOf : Nat → Nat) (w : World)
    (cid : Nat) (ty : Nat) (name : String) : Except Err (Option Nat) :=
  match alookup (ty, name) (w.ctx cid).resources with
  | some rc => .ok (some rc.value_or_factory)
  | none =>
    match (chain w cid).find? (fun c => (alookup (ty, name) (w.ctx c).factories).isSome) with
    | some c =>
      match alookup (ty, name) (w.ctx c).factories with
      | some rc =>
        let v := fenv rc.value_or_factory cid
        match (addResource w cid (some v) (tyOf v) rc.name rc.context_attr rc.types).2 with
        | .ok _ => .ok (some v)
        | .error e => .error e
      | none => .ok none
    | none =>
      match (chain w cid).find? (fun c => (alookup (ty, name) (w.ctx c).resources).isSome) with
      | some c => .ok ((alookup (ty, name) (w.ctx c).resources).map
          (fun rc => rc.value_or_factory))
      | none => .ok none

/-- An operation performed by another task while a `request_resource`
caller is suspended: a plain `add_resource` or an
`add_resource_factory` on some context. -/
inductive Op : Type
  | addRes (cid : Nat) (value : Option Nat) (vty : Nat) (name : String)
      (cattr : Option String) (types : List Nat)
  | addFac (cid : Nat) (fid : Nat) (types : List Nat) (name : String)
      (cattr : Option String)
deriving DecidableEq

/-- Apply one operation; a successful add dispatches one
`resource_added` event (source context id, container), a failing add
dispatches none (the source raises before its dispatch line). -/
def applyOp (w : World) : Op → World × Option (Nat × RC)
  | .addRes cid value vty name cattr types =>
    match addResource w cid value vty name cattr types with
    | (w1, .ok rc) => (w1, some (cid, rc))
    | (w1, .error _) => (w1, none)
  | .addFac cid fid types name cattr =>
    match addResourceFactory w cid fid types name cattr with
    | (w1, .ok rc) => (w1, some (cid, rc))
    | (w1, .error _) => (w1, none)

/-- Model of the predicate passed to `wait_event` in
`Context.request_resource` (`context.py` lines 406-408), restricted to
the signals of the requester's context chain: the event must come from a
chain context and carry a container whose `name` matches and whose
`types` contain the requested type. -/
def eventWakes (chainIds : List Nat) (ty : Nat) (name : String) (ev : Nat × RC) : Bool :=
  decide (ev.1 ∈ chainIds) && decide (ev.2.name = name) && decide (ty ∈ ev.2.types)

/-- Outcome of `Context.request_resource` against a stream of operations
performed by other tasks: returned without suspending, raised during the
initial lookup, resumed by the matching notification of the k-th
operation (carrying the retried lookup's result), or still suspended
when the stream ends. -/
inductive ReqResult : Type
  | immediate (v : Nat)
  | raised (e : Err)
  | resumed (k : Nat) (r : Except Err (Option Nat))
  | pending
deriving DecidableEq

/-- The suspended phase of `request_resource`: subsequent operations run
one by one; the first dispatched event satisfying the wake predicate
resumes the caller, which retries `get_resource` once. -/
def awaitLoop (fenv : Nat → Nat → Nat) (tyOf : Nat → Nat) (chainIds : List Nat)
    (cid : Nat) (ty : Nat) (name : String) :
    World → List Op → Nat → ReqResult × World
  | w, [], _ => (.pending, w)
  | w, op :: rest, k =>
    let r := applyOp w op
    match r.2 with
    | some ev =>
      if eventWakes chainIds ty name ev then
        let g := getResource fenv tyOf r.1 cid ty name
        (.resumed k g.result, g.world)
      else awaitLoop fenv tyOf chainIds cid ty name r.1 rest (k + 1)
    | none => awaitLoop fenv tyOf chainIds cid ty name r.1 rest (k + 1)

/-- The world after a sequence of operations by other tasks. -/
def stepOps (w : World) (ops : List Op) : World :=
  ops.foldl (fun wa op => (applyOp wa op).1) w

/-- Model of `Context.request_resource` (`context.py` lines 388-409):
return immediately when `get_resource` already yields a value, otherwise
suspend on the chain's `resource_added` signals until a matching
notification, then retry `get_resource` once and return its result. -/
def requestResource (fenv : Nat → Nat → Nat) (tyOf : Nat → Nat) (w : World)
    (cid : Nat) (ty : Nat) (name : String) (ops : List Op) : ReqResult × World :=
  let g := getResource fenv tyOf w cid ty name
  match g.result with
  | .error e => (.raised e, g.world)
  | .ok (some v) => (.immediate v, g.world)
  | .ok none => awaitLoop fenv tyOf (chain w cid) cid ty name g.world ops 0

end Asphalt

namespace AsphaltComponent

/-- Observable events of the orchestrator's start pass on one component
node: `prepare()` returning, the `ComponentContext` status flip to
`"starting"`, and the node's own `start()` call. -/
inductive CEvent : Type
  | prepare (id : Nat)
  | setStarting (id : Nat)
  | startEvt (id : Nat)
deriving DecidableEq

/-- A component tree: node id plus the list of direct child subtrees
(the instantiated tree `_init_component` hands to the start pass). -/
inductive CompTree : Type
  | node (id : Nat) (children : List CompTree)

/-- Root id of a component tree. -/
def CompTree.id : CompTree → Nat
  | .node n _ => n

/-- Direct children of a component tree. -/
def CompTree.children : CompTree → List CompTree
  | .node _ cs => cs

/-- Interleaving of a finite family of event sequences: the cooperative
scheduler repeatedly picks any task of the family and runs its next
event, preserving each task's own order.  This is the semantics of the
`anyio` task group in `_start_component`: sibling tasks share one
structured-concurrency scope and have no defined relative order. -/
inductive NInterleave {α : Type} : List (List α) → List α → Prop
  | nil (ls : List (List α)) (h : ∀ l ∈ ls, l = []) : NInterleave ls []
  | cons (ls : List (List α)) (i : Nat) (a : α) (tl out : List α)
      (hget : ls[i]? = some (a :: tl))
      (hrest : NInterleave (ls.set i tl) out) :
      NInterleave ls (a :: out)

/-- Trace semantics of `_start_component` (`_component.py` lines
295-328): on each node, `prepare()` runs first, then the status flips to
`"starting"`, then the direct children's start passes run concurrently
inside one task group (any interleaving of their traces), and the node's
own `start()` runs only after the task group has exited, i.e. after
every child's entire subtree trace has completed. -/
inductive StartTrace : CompTree → List CEvent → Prop
  | mk (n : Nat) (cs : List CompTree) (ts : List (List CEvent)) (mid : List CEvent)
      (hlen : ts.length = cs.length)
      (hts : ∀ i : Nat, ∀ h1 : i < cs.length, ∀ h2 : i < ts.length,
        StartTrace (cs.get ⟨i, h1⟩) (ts.get ⟨i, h2⟩))
      (hmix : NInterleave ts mid) :
      StartTrace (.node n cs) (.prepare n :: .setStarting n :: (mid ++ [.startEvt n]))

/-- A sample tree: a root with two leaf children, used to exhibit the
undefined relative order of siblings. -/
def sampleTwoChildren : CompTree :=
  .node 0 [.node 1 [], .node 2 []]

/-- Status of a `ComponentContext` (`_component.py` line 173). -/
inductive Status : Type
  | preparing
  | starting
deriving DecidableEq

/-- Model of one context of the component-start world: the parent link,
whether the object is a `ComponentContext` (as opposed to a plain base
`Context` — this decides the dynamic dispatch of
`add_resource_factory`), its status and alias-derived default resource
name, and its base-class resource and factory tables as append-ordered
logs of (name, payload) registrations. -/
structure CCState : Type where
  parent : Option Nat := none
  isComponent : Bool := true
  status : Status := .preparing
  defaultResourceName : String := "default"
  res : List (String × Nat) := []
  fac : List (String × Nat) := []
deriving DecidableEq

/-- Heap of contexts of the component-start world, indexed by id. -/
structure CWorld : Type where
  ctxs : List CCState
deriving DecidableEq

/-- State of the context with the given id. -/
def CWorld.ctx (w : CWorld) (cid : Nat) : CCState :=
  w.ctxs.getD cid {}

/-- Replace the state of one context. -/
def cupd (w : CWorld) (cid : Nat) (f : CCState → CCState) : CWorld :=
  ⟨w.ctxs.set cid (f (w.ctx cid))⟩

/-- Modelled from the spec: the base `Context.add_resource` of the
modernized context module (`_context.py`, which is not among the
sources; spec §4.2 gives `add_resource(value, name="default", ...)`):
the value is recorded in the context's own resource table under the
given name, an omitted name defaulting to `"default"`.  Types,
descriptions and teardown callbacks are not modelled — claim C8 is
about names and propagation only. -/
def baseAddResource (w : CWorld) (cid : Nat) (name : Option String) (v : Nat) : CWorld :=
  cupd w cid (fun st => { st with res := st.res ++ [(name.getD "default", v)] })

/-- Modelled from the spec: the base `Context.add_resource_factory` of
the modernized context module (`_context.py`, not among the sources;
spec §4.2 gives `add_resource_factory(factory, types, name="default",
...)`): the factory is recorded in the context's own factory table under
the given name, an omitted name defaulting to `"default"`. -/
def baseAddFactory (w : CWorld) (cid : Nat) (name : Option String) (fid : Nat) : CWorld :=
  cupd w cid (fun st => { st with fac := st.fac ++ [(name.getD "default", fid)] })

/-- Model of `ComponentContext.add_resource` (`_component.py` lines
175-202): while `preparing` the name is forced to `"default"`; the
resource is stored via the base method on the context itself; when a
parent exists and the status is `"starting"` the resource is also stored
one level up via the explicit base-class call
`Context.add_resource(self._parent, value, name or
self._default_resource_name, ...)`.  A `None` name models an omitted
one; the Python-falsy empty string is not modelled. -/
def ccAddResource (w : CWorld) (cid : Nat) (name0 : Option String) (v : Nat) : CWorld :=
  let st := w.ctx cid
  let name := if st.status = .preparing then some "default" else name0
  let w1 := baseAddResource w cid name v
  match st.parent, st.status with
  | some p, .starting => baseAddResource w1 p (some (name.getD st.defaultResourceName)) v
  | _, _ => w1

/-- Model of `ComponentContext.add_resource_factory` (`_component.py`
lines 204-227): while `preparing` the name is forced to `"default"`; the
factory is stored via the base method on the context itself; when a
parent exists and the status is `"starting"` the factory is also
registered on the parent through the dynamically dispatched call
`self._parent.add_resource_factory(factory_callback, name, ...)` — with
the name passed through unchanged — which runs the `ComponentContext`
override again when the parent is itself a `ComponentContext`, and the
base method otherwise.  `fuel` bounds the parent recursion; any value
above the chain length is exact. -/
def ccAddFactory (w : CWorld) (fuel : Nat) (cid : Nat) (name0 : Option String)
    (fid : Nat) : CWorld :=
  match fuel with
  | 0 => w
  | fuel + 1 =>
    let st := w.ctx cid
    let name := if st.status = .preparing then some "default" else name0
    let w1 := baseAddFactory w cid name fid
    match st.parent, st.status with
    | some p, .starting =>
      if (w.ctx p).isComponent then ccAddFactory w1 fuel p name fid
      else baseAddFactory w1 p name fid
    | _, _ => w1

end AsphaltComponent

namespace Asphalt

theorem alookup_setKey_self {α β : Type} [DecidableEq α] (k : α) (v : β)
    (l : List (α × β)) : alookup k (setKey k v l) = some v := by
  induction l with
  | nil => simp [alookup, setKey]
  | cons hd tl ih =>
    obtain ⟨k', v'⟩ := hd
    by_cases h : k' = k
    · simp [alookup, setKey, h]
    · simp [alookup, setKey, h, ih]

theorem alookup_setKey_ne {α β : Type} [DecidableEq α] (k k₀ : α) (v : β)
    (l : List (α × β)) (hne : k₀ ≠ k) :
    alookup k (setKey k₀ v l) = alookup k l := by
  induction l with
  | nil => simp [alookup, setKey, hne]
  | cons hd tl ih =>
    obtain ⟨k', v'⟩ := hd
    by_cases h : k' = k₀
    · subst h
      simp [alookup, setKey, hne]
    · simp only [setKey, if_neg h]
      by_cases h2 : k' = k
      · simp [alookup, h2]
      · simp [alookup, h2, ih]

theorem getD_set_self {α : Type} (l : List α) (i : Nat) (a d : α) (h : i < l.length) :
    (l.set i a).getD i d = a := by
  simp [List.getD_eq_getElem?_getD, List.getElem?_set_eq_of_lt a h]

theorem getD_set_ne {α : Type} (l : List α) (i j : Nat) (a d : α) (h : i ≠ j) :
    (l.set i a).getD j d = l.getD j d := by
  simp [List.getD_eq_getElem?_getD, List.getElem?_set_ne h]

theorem ctx_updCtx_self (w : World) (cid : Nat) (f : CtxState → CtxState)
    (h : cid < w.ctxs.length) : (updCtx w cid f).ctx cid = f (w.ctx cid) :=
  getD_set_self w.ctxs cid (f (w.ctx cid)) {} h

theorem ctx_updCtx_ne (w : World) (cid j : Nat) (f : CtxState → CtxState)
    (h : cid ≠ j) : (updCtx w cid f).ctx j = w.ctx j :=
  getD_set_ne w.ctxs cid j (f (w.ctx cid)) {} h

theorem updCtx_length (w : World) (cid : Nat) (f : CtxState → CtxState) :
    (updCtx w cid f).ctxs.length = w.ctxs.length := by
  simp [updCtx]

theorem updCtx_events (w : World) (cid : Nat) (f : CtxState → CtxState) :
    (updCtx w cid f).events = w.events := by
  simp [updCtx]

theorem ctx_updCtx_pres {γ : Type} (proj : CtxState → γ) (w : World) (cid : Nat)
    (f : CtxState → CtxState) (j : Nat) (h : ∀ st, proj (f st) = proj st) :
    proj ((updCtx w cid f).ctx j) = proj (w.ctx j) := by
  by_cases hj : cid = j
  · subst hj
    by_cases hlt : cid < w.ctxs.length
    · rw [ctx_updCtx_self w cid f hlt, h]
    · have hle : w.ctxs.length ≤ cid := Nat.le_of_not_lt hlt
      simp [updCtx, World.ctx, List.set_eq_of_length_le hle]
  · rw [ctx_updCtx_ne w cid j f hj]

theorem findSome?_eq_find? {α β : Type} (f : α → Option β) (l : List α) :
    l.findSome? f =
      (match l.find? (fun a => (f a).isSome) with
        | some a => f a
        | none => none) := by
  induction l with
  | nil => simp
  | cons hd tl ih =>
    cases hf : f hd with
    | some b => simp [List.findSome?_cons, List.find?_cons, hf]
    | none => simp [List.findSome?_cons, List.find?_cons, hf, ih]

theorem foldl_updCtx_length (cid : Nat) (g : Nat → CtxState → CtxState)
    (ts : List Nat) (w : World) :
    (ts.foldl (fun wa t => updCtx wa cid (g t)) w).ctxs.length = w.ctxs.length := by
  induction ts generalizing w with
  | nil => rfl
  | cons t ts ih => rw [List.foldl_cons, ih, updCtx_length]

theorem foldl_updCtx_pres {γ : Type} (proj : CtxState → γ) (cid : Nat)
    (g : Nat → CtxState → CtxState) (ts : List Nat) (w : World) (j : Nat)
    (h : ∀ t st, proj (g t st) = proj st) :
    proj ((ts.foldl (fun wa t => updCtx wa cid (g t)) w).ctx j) = proj (w.ctx j) := by
  induction ts generalizing w with
  | nil => rfl
  | cons t ts ih =>
    rw [List.foldl_cons, ih, ctx_updCtx_pres proj w cid (g t) j (h t)]

theorem ctx_setEvents (w : World) (E : List (Nat × RC)) (j : Nat) :
    ({ w with events := E } : World).ctx j = w.ctx j := rfl

theorem addResource_error (w : World) (cid : Nat) (value : Option Nat) (vty : Nat)
    (name : String) (cattr : Option String) (types0 : List Nat) (e : Err)
    (h : addResourceErr w cid value name cattr
      (if types0.isEmpty then [vty] else types0) = some e) :
    addResource w cid value vty name cattr types0 = (w, .error e) := by
  simp only [addResource]
  rw [h]

theorem addResource_ok (w : World) (cid : Nat) (value : Option Nat) (vty : Nat)
    (name : String) (cattr : Option String) (types0 : List Nat)
    (h : addResourceErr w cid value name cattr
      (if types0.isEmpty then [vty] else types0) = none) :
    addResource w cid value vty name cattr types0 =
      (addResourceCommit w cid (value.getD 0) name cattr
        (if types0.isEmpty then [vty] else types0),
       .ok ⟨value.getD 0, if types0.isEmpty then [vty] else types0, name, cattr, false⟩) := by
  simp only [addResource]
  rw [h]

theorem addFactory_error (w : World) (cid : Nat) (fid : Nat) (types : List Nat)
    (name : String) (cattr : Option String) (e : Err)
    (h : addFactoryErr w cid name cattr types = some e) :
    addResourceFactory w cid fid types name cattr = (w, .error e) := by
  simp only [addResourceFactory]
  rw [h]

theorem addFactory_ok (w : World) (cid : Nat) (fid : Nat) (types : List Nat)
    (name : String) (cattr : Option String)
    (h : addFactoryErr w cid name cattr types = none) :
    addResourceFactory w cid fid types name cattr =
      (addFactoryCommit w cid fid name cattr types,
       .ok ⟨fid, types, name, cattr, true⟩) := by
  simp only [addResourceFactory]
  rw [h]

theorem addResourceCommit_attrs (w : World) (cid : Nat) (v : Nat) (name : String)
    (a : String) (types : List Nat) (hlt : cid < w.ctxs.length) :
    alookup a ((addResourceCommit w cid v name (some a) types).ctx cid).attrs = some v := by
  simp only [addResourceCommit]
  rw [ctx_setEvents]
  rw [ctx_updCtx_self]
  · exact alookup_setKey_self a v _
  · rw [foldl_updCtx_length]
    exact hlt

theorem addFactoryCommit_byattr (w : World) (cid : Nat) (fid : Nat) (name : String)
    (a : String) (types : List Nat) (hlt : cid < w.ctxs.length) :
    alookup a ((addFactoryCommit w cid fid name (some a) types).ctx cid).factoriesByAttr =
      some ⟨fid, types, name, some a, true⟩ := by
  simp only [addFactoryCommit]
  rw [ctx_setEvents]
  rw [ctx_updCtx_self]
  · exact alookup_setKey_self a _ _
  · rw [foldl_updCtx_length]
    exact hlt

theorem addResourceCommit_pres {γ : Type} (proj : CtxState → γ) (w : World)
    (cid : Nat) (v : Nat) (name : String) (cattr : Option String) (types : List Nat)
    (j : Nat)
    (h1 : ∀ st l, proj { st with resources := l } = proj st)
    (h2 : ∀ st l, proj { st with attrs := l } = proj st) :
    proj ((addResourceCommit w cid v name cattr types).ctx j) = proj (w.ctx j) := by
  simp only [addResourceCommit]
  cases cattr with
  | none =>
    rw [ctx_setEvents]
    exact foldl_updCtx_pres proj cid _ types w j (fun t st => h1 st _)
  | some a =>
    rw [ctx_setEvents, ctx_updCtx_pres proj _ cid _ j (fun st => h2 st _)]
    exact foldl_updCtx_pres proj cid _ types w j (fun t st => h1 st _)

/-- Claim C10: `add_resource` is atomic on failure.  Whenever the model
of `Context.add_resource` returns an error (value `None`, ill-formed
name, conflicting context attribute, or a duplicate `(type, name)` pair
under any requested type), the returned world — resource tables, context
attributes and the `resource_added` event log alike — is exactly the
input world: every validation check of the source precedes every
mutation. -/
theorem c10_add_resource_atomic_on_failure (w : World) (cid : Nat)
    (value : Option Nat) (vty : Nat) (name : String) (cattr : Option String)
    (types : List Nat) (e : Err)
    (herr : (addResource w cid value vty name cattr types).2 = .error e) :
    (addResource w cid value vty name cattr types).1 = w := by
  cases h : addResourceErr w cid value name cattr
      (if types.isEmpty then [vty] else types) with
  | some e2 => rw [addResource_error w cid value vty name cattr types e2 h]
  | none =>
    rw [addResource_ok w cid value vty name cattr types h] at herr
    exact absurd herr (by simp)

/-- Witness for C10 at a concrete failing input (`value is None`). -/
theorem c10_add_resource_atomic_on_failure_witness :
    (addResource ⟨[{}], []⟩ 0 none 1 "default" none []).1 = ⟨[{}], []⟩ :=
  c10_add_resource_atomic_on_failure ⟨[{}], []⟩ 0 none 1 "default" none []
    .valueError (by decide)

theorem addResourceCommit_resources_self (w : World) (cid : Nat) (v : Nat)
    (name : String) (cattr : Option String) (ty : Nat) (hlt : cid < w.ctxs.length) :
    alookup (ty, name) ((addResourceCommit w cid v name cattr [ty]).ctx cid).resources =
      some ⟨v, [ty], name, cattr, false⟩ := by
  simp only [addResourceCommit, List.foldl_cons, List.foldl_nil]
  rw [ctx_setEvents]
  cases cattr with
  | none =>
    rw [ctx_updCtx_self _ _ _ hlt]
    exact alookup_setKey_self (ty, name) _ _
  | some a =>
    rw [ctx_updCtx_self]
    · show alookup (ty, name)
        (((updCtx w cid _).ctx cid)).resources = _
      rw [ctx_updCtx_self _ _ _ hlt]
      exact alookup_setKey_self (ty, name) _ _
    · rw [updCtx_length]
      exact hlt

theorem getResource_direct_hit (fenv : Nat → Nat → Nat) (tyOf : Nat → Nat)
    (w : World) (cid ty : Nat) (name : String) (rc : RC)
    (h : alookup (ty, name) (w.ctx cid).resources = some rc) :
    getResource fenv tyOf w cid ty name = ⟨w, .ok (some rc.value_or_factory), []⟩ := by
  simp only [getResource, h]

/-- Claim C7: on a context that already directly holds a resource under
`(T, n)`, a second `add_resource` registering any value under a type
list containing `T` with the same name fails with `ResourceConflict` and
leaves the world unchanged; while the same `(T, n)` registration on a
child context succeeds, and the child's subsequent `get_resource(T, n)`
then returns the child's own value (the child's resource shadows the
parent's). -/
theorem c7_same_pair_conflict_child_shadows (fenv : Nat → Nat → Nat)
    (tyOf : Nat → Nat) (w : World) (p c ty : Nat) (n : String) (rc0 : RC)
    (hname : validName n = true)
    (hp : alookup (ty, n) (w.ctx p).resources = some rc0) :
    (∀ v vty types, ty ∈ types →
      addResource w p (some v) vty n none types = (w, .error .resourceConflict))
    ∧ (∀ v2 vty2, (w.ctx c).parent = some p → c < w.ctxs.length →
        alookup (ty, n) (w.ctx c).resources = none →
        addResource w c (some v2) vty2 n none [ty] =
          (addResourceCommit w c v2 n none [ty], .ok ⟨v2, [ty], n, none, false⟩)
        ∧ (getResource fenv tyOf (addResourceCommit w c v2 n none [ty]) c ty n).result =
            .ok (some v2)) := by
  constructor
  · intro v vty types hty
    have hne : types.isEmpty = false := by
      cases types with
      | nil => cases hty
      | cons t ts => rfl
    have herr : addResourceErr w p (some v) n none
        (if types.isEmpty then [vty] else types) = some .resourceConflict := by
      simp only [hne, Bool.false_eq_true, if_false]
      simp [addResourceErr, hname]
      exact ⟨ty, hty, by simp [hp]⟩
    exact addResource_error w p (some v) vty n none types _ herr
  · intro v2 vty2 hpar hlt hfresh
    have herr : addResourceErr w c (some v2) n none
        (if ([ty] : List Nat).isEmpty then [vty2] else [ty]) = none := by
      simp [addResourceErr, hname, hfresh]
    have hok := addResource_ok w c (some v2) vty2 n none [ty] herr
    refine ⟨hok, ?_⟩
    have hhit := addResourceCommit_resources_self w c v2 n none ty hlt
    rw [getResource_direct_hit fenv tyOf _ c ty n _ hhit]

/-- Witness for C7: a parent holding `(1, "default")` rejects a second
registration; the child's registration succeeds and shadows. -/
theorem c7_same_pair_conflict_child_shadows_witness :
    addResource
        ⟨[{ resources := [((1, "default"), ⟨7, [1], "default", none, false⟩)] },
          { parent := some 0 }], []⟩ 0 (some 9) 1 "default" none [1] =
      (⟨[{ resources := [((1, "default"), ⟨7, [1], "default", none, false⟩)] },
          { parent := some 0 }], []⟩, .error .resourceConflict)
    ∧ (getResource (fun f _ => f) (fun _ => 1)
        (addResourceCommit
          ⟨[{ resources := [((1, "default"), ⟨7, [1], "default", none, false⟩)] },
            { parent := some 0 }], []⟩ 1 4 "default" none [1]) 1 1 "default").result =
      .ok (some 4) := by
  have h := c7_same_pair_conflict_child_shadows (fun f _ => f) (fun _ => 1)
    ⟨[{ resources := [((1, "default"), ⟨7, [1], "default", none, false⟩)] },
      { parent := some 0 }], []⟩ 0 1 1 "default" ⟨7, [1], "default", none, false⟩
    (by decide) (by decide)
  exact ⟨h.1 9 1 [1] (by decide), (h.2 4 1 (by decide) (by decide) (by decide)).2⟩

/-- Claim C1 (amended): the returned value of `Context.get_resource` is
exactly the spec's three-tier ordered lookup — (1) a resource stored
directly on the requesting node wins; (2) otherwise the nearest
ancestor-or-self factory is materialized via `generate_value(self)` and
its value returned; (3) otherwise the nearest ancestor-or-self resource
value is returned, and `None` when all tiers miss — with the amendment
that a tier-2 materialization whose internal `add_resource` on the
requesting context fails (the factory's registered types or attribute
conflicting with resources already directly present there) surfaces that
error instead of returning the generated value. -/
theorem c1_get_resource_three_tier_refinement (fenv : Nat → Nat → Nat)
    (tyOf : Nat → Nat) (w : World) (cid ty : Nat) (name : String) :
    (getResource fenv tyOf w cid ty name).result =
      getResourceSpecValue fenv tyOf w cid ty name := by
  simp only [getResource, getResourceSpecValue]
  cases h1 : alookup (ty, name) (w.ctx cid).resources with
  | some rc => simp only [h1]
  | none =>
    simp only [h1]
    rw [findSome?_eq_find?]
    cases h2 : (chain w cid).find?
        (fun c => (alookup (ty, name) (w.ctx c).factories).isSome) with
    | some cf =>
      simp only [h2]
      have hpred := List.find?_some h2
      obtain ⟨rc, hrc⟩ := Option.isSome_iff_exists.mp hpred
      simp only [hrc]
      cases h3 : (addResource w cid (some (fenv rc.value_or_factory cid))
          (tyOf (fenv rc.value_or_factory cid)) rc.name rc.context_attr rc.types).2 with
      | ok r => simp only [h3]
      | error e => simp only [h3]
    | none =>
      simp only [h2]
      rw [findSome?_eq_find?]
      cases h3 : (chain w cid).find?
          (fun c => (alookup (ty, name) (w.ctx c).resources).isSome) with
      | some cr => simp only [h3]
      | none =>
        simp only [h3]
        rfl

/-- Claim C1 counterexample: a context directly holding a resource under
`(2, "d")` and a factory registered under `(1, "d")` with
`types=(1, 2)`.  `get_resource(1, "d")` misses tier 1, finds the factory
in tier 2, and `generate_value` then raises `ResourceConflict` (its
internal `add_resource` hits the existing `(2, "d")` entry) instead of
returning the generated value `fenv 9 0 = 900` that the claim
promises. -/
theorem c1_counterexample :
    ((getResource (fun f c => 100 * f + c) (fun _ => 50)
        ⟨[{ resources := [((2, "d"), ⟨5, [2], "d", none, false⟩)],
            factories := [((1, "d"), ⟨9, [1, 2], "d", none, true⟩)] }], []⟩
        0 1 "d").result = .error .resourceConflict)
    ∧ ((getResource (fun f c => 100 * f + c) (fun _ => 50)
        ⟨[{ resources := [((2, "d"), ⟨5, [2], "d", none, false⟩)],
            factories := [((1, "d"), ⟨9, [1, 2], "d", none, true⟩)] }], []⟩
        0 1 "d").result ≠ .ok (some 900)) := by
  decide

/-- Claim C4: for a factory registered under `types=(T,)` and name `n`
somewhere in the requesting context's chain (and no direct resource
under `(T, n)` on the requester), `get_resource(T, n)`:
(1) invokes the factory callback exactly once, on the requesting
context, and stores the freshly generated value — a function of the
requesting context — directly on the requesting context;
(2) never mutates or consumes any context's factory tables (in
particular the declaring node's entry survives generation); and
(3) a second `get_resource(T, n)` on the same context returns the same
already-generated value without invoking the callback again and without
changing the world.
Distinct requesting contexts each trigger their own invocation with
their own generated value, by (1) applied at each of them. -/
theorem c4_factory_per_context_generation (fenv : Nat → Nat → Nat) (tyOf : Nat → Nat)
    (w : World) (c ty fid : Nat) (n : String)
    (hc : c < w.ctxs.length)
    (hname : validName n = true)
    (h1 : alookup (ty, n) (w.ctx c).resources = none)
    (h2 : (chain w c).findSome? (fun j => alookup (ty, n) (w.ctx j).factories) =
      some ⟨fid, [ty], n, none, true⟩) :
    getResource fenv tyOf w c ty n =
      ⟨addResourceCommit w c (fenv fid c) n none [ty], .ok (some (fenv fid c)), [(fid, c)]⟩
    ∧ (∀ j, ((addResourceCommit w c (fenv fid c) n none [ty]).ctx j).factories =
        (w.ctx j).factories
      ∧ ((addResourceCommit w c (fenv fid c) n none [ty]).ctx j).factoriesByAttr =
        (w.ctx j).factoriesByAttr)
    ∧ getResource fenv tyOf (addResourceCommit w c (fenv fid c) n none [ty]) c ty n =
      ⟨addResourceCommit w c (fenv fid c) n none [ty], .ok (some (fenv fid c)), []⟩ := by
  refine ⟨?_, ?_, ?_⟩
  · have herr : addResourceErr w c (some (fenv fid c)) n none
        (if ([ty] : List Nat).isEmpty then [tyOf (fenv fid c)] else [ty]) = none := by
      simp [addResourceErr, hname, h1]
    simp only [getResource, h1, h2]
    rw [addResource_ok w c (some (fenv fid c)) (tyOf (fenv fid c)) n none [ty] herr]
    rfl
  · intro j
    exact ⟨addResourceCommit_pres (fun st => st.factories) w c (fenv fid c) n none [ty] j
        (fun st l => rfl) (fun st l => rfl),
      addResourceCommit_pres (fun st => st.factoriesByAttr) w c (fenv fid c) n none [ty] j
        (fun st l => rfl) (fun st l => rfl)⟩
  · have hhit := addResourceCommit_resources_self w c (fenv fid c) n none ty hc
    rw [getResource_direct_hit fenv tyOf _ c ty n _ hhit]

/-- Witness for C4: a factory on the root; the child (context 1) and the
root (context 0) each generate their own value with one invocation each,
and the child's second lookup reuses the stored value with no further
invocation. -/
theorem c4_factory_per_context_generation_witness :
    getResource (fun f c => 100 * f + c) (fun _ => 50)
        ⟨[{ factories := [((1, "default"), ⟨7, [1], "default", none, true⟩)] },
          { parent := some 0 }], []⟩ 1 1 "default" =
      ⟨addResourceCommit
          ⟨[{ factories := [((1, "default"), ⟨7, [1], "default", none, true⟩)] },
            { parent := some 0 }], []⟩ 1 701 "default" none [1],
        .ok (some 701), [(7, 1)]⟩
    ∧ getResource (fun f c => 100 * f + c) (fun _ => 50)
        ⟨[{ factories := [((1, "default"), ⟨7, [1], "default", none, true⟩)] },
          { parent := some 0 }], []⟩ 0 1 "default" =
      ⟨addResourceCommit
          ⟨[{ factories := [((1, "default"), ⟨7, [1], "default", none, true⟩)] },
            { parent := some 0 }], []⟩ 0 700 "default" none [1],
        .ok (some 700), [(7, 0)]⟩
    ∧ getResource (fun f c => 100 * f + c) (fun _ => 50)
        (addResourceCommit
          ⟨[{ factories := [((1, "default"), ⟨7, [1], "default", none, true⟩)] },
            { parent := some 0 }], []⟩ 1 701 "default" none [1]) 1 1 "default" =
      ⟨addResourceCommit
          ⟨[{ factories := [((1, "default"), ⟨7, [1], "default", none, true⟩)] },
            { parent := some 0 }], []⟩ 1 701 "default" none [1],
        .ok (some 701), []⟩ := by
  have hc1 := c4_factory_per_context_generation (fun f c => 100 * f + c) (fun _ => 50)
    ⟨[{ factories := [((1, "default"), ⟨7, [1], "default", none, true⟩)] },
      { parent := some 0 }], []⟩ 1 1 7 "default"
    (by decide) (by decide) (by decide) (by decide)
  have hc0 := c4_factory_per_context_generation (fun f c => 100 * f + c) (fun _ => 50)
    ⟨[{ factories := [((1, "default"), ⟨7, [1], "default", none, true⟩)] },
      { parent := some 0 }], []⟩ 0 1 7 "default"
    (by decide) (by decide) (by decide) (by decide)
  exact ⟨hc1.1, hc0.1, hc1.2.2⟩

@[simp] theorem stepOps_nil (w : World) : stepOps w [] = w := rfl

@[simp] theorem stepOps_cons (w : World) (op : Op) (ops : List Op) :
    stepOps w (op :: ops) = stepOps (applyOp w op).1 ops := rfl

theorem getResource_none_inert (fenv : Nat → Nat → Nat) (tyOf : Nat → Nat)
    (w : World) (cid ty : Nat) (n : String)
    (h : (getResource fenv tyOf w cid ty n).result = .ok none) :
    getResource fenv tyOf w cid ty n = ⟨w, .ok none, []⟩ := by
  simp only [getResource] at h ⊢
  split at h
  · simp at h
  · rename_i h1
    split at h
    · rename_i rc h2
      split at h
      · simp at h
      · simp at h
    · rename_i h2
      have h' : ((chain w cid).findSome?
          (fun c => alookup (ty, n) (w.ctx c).resources)).map
          (fun rc => rc.value_or_factory) = none := Except.ok.inj h
      rw [h']

theorem awaitLoop_shape (fenv : Nat → Nat → Nat) (tyOf : Nat → Nat) (ch : List Nat)
    (cid ty : Nat) (n : String) :
    ∀ (ops : List Op) (w0 : World) (base : Nat),
      (awaitLoop fenv tyOf ch cid ty n w0 ops base).1 = .pending ∨
      ∃ k r, (awaitLoop fenv tyOf ch cid ty n w0 ops base).1 = .resumed k r := by
  intro ops
  induction ops with
  | nil =>
    intro w0 base
    left
    rfl
  | cons op rest ih =>
    intro w0 base
    simp only [awaitLoop]
    split
    · split
      · right
        exact ⟨base, _, rfl⟩
      · exact ih _ _
    · exact ih _ _

theorem awaitLoop_resumed_sound (fenv : Nat → Nat → Nat) (tyOf : Nat → Nat)
    (ch : List Nat) (cid ty : Nat) (n : String) :
    ∀ (ops : List Op) (w0 : World) (base k : Nat) (r : Except Err (Option Nat)),
      (awaitLoop fenv tyOf ch cid ty n w0 ops base).1 = .resumed k r →
      base ≤ k
      ∧ (∃ op, ops[k - base]? = some op
          ∧ ∃ ev, (applyOp (stepOps w0 (ops.take (k - base))) op).2 = some ev
            ∧ eventWakes ch ty n ev = true
            ∧ r = (getResource fenv tyOf
                (applyOp (stepOps w0 (ops.take (k - base))) op).1 cid ty n).result)
      ∧ ∀ j, j < k - base → ∀ op' ev', ops[j]? = some op' →
          (applyOp (stepOps w0 (ops.take j)) op').2 = some ev' →
          eventWakes ch ty n ev' = false := by
  intro ops
  induction ops with
  | nil =>
    intro w0 base k r h
    simp [awaitLoop] at h
  | cons op rest ih =>
    intro w0 base k r h
    simp only [awaitLoop] at h
    split at h
    · rename_i ev hev
      split at h
      · rename_i hw
        injection h with hbase hr
        subst hbase
        refine ⟨Nat.le_refl base, ?_, ?_⟩
        · rw [Nat.sub_self]
          refine ⟨op, by simp, ev, ?_, hw, hr.symm⟩
          simpa using hev
        · intro j hj
          rw [Nat.sub_self] at hj
          exact absurd hj (Nat.not_lt_zero j)
      · rename_i hw
        obtain ⟨hle, ⟨op1, hop1, hex⟩, hmin⟩ := ih _ _ _ _ h
        have hbk : base + 1 ≤ k := hle
        have hidx : k - base = (k - (base + 1)) + 1 := by omega
        refine ⟨by omega, ?_, ?_⟩
        · rw [hidx]
          refine ⟨op1, by simpa using hop1, ?_⟩
          simpa [List.take_succ_cons] using hex
        · intro j hj op' ev' hop' hev'
          cases j with
          | zero =>
            simp at hop'
            subst hop'
            simp only [List.take_zero, stepOps_nil] at hev'
            rw [hev] at hev'
            have hee : ev = ev' := Option.some.inj hev'
            subst hee
            exact eq_false_of_ne_true hw
          | succ j' =>
            have hj' : j' < k - (base + 1) := by omega
            exact hmin j' hj' op' ev' (by simpa using hop')
              (by simpa [List.take_succ_cons] using hev')
    · rename_i hev
      obtain ⟨hle, ⟨op1, hop1, hex⟩, hmin⟩ := ih _ _ _ _ h
      have hbk : base + 1 ≤ k := hle
      have hidx : k - base = (k - (base + 1)) + 1 := by omega
      refine ⟨by omega, ?_, ?_⟩
      · rw [hidx]
        refine ⟨op1, by simpa using hop1, ?_⟩
        simpa [List.take_succ_cons] using hex
      · intro j hj op' ev' hop' hev'
        cases j with
        | zero =>
          simp at hop'
          subst hop'
          simp only [List.take_zero, stepOps_nil] at hev'
          rw [hev] at hev'
          exact Option.noConfusion hev'
        | succ j' =>
          have hj' : j' < k - (base + 1) := by omega
          exact hmin j' hj' op' ev' (by simpa using hop')
            (by simpa [List.take_succ_cons] using hev')

theorem awaitLoop_pending_sound (fenv : Nat → Nat → Nat) (tyOf : Nat → Nat)
    (ch : List Nat) (cid ty : Nat) (n : String) :
    ∀ (ops : List Op) (w0 : World) (base : Nat),
      (awaitLoop fenv tyOf ch cid ty n w0 ops base).1 = .pending →
      ∀ j op' ev', ops[j]? = some op' →
        (applyOp (stepOps w0 (ops.take j)) op').2 = some ev' →
        eventWakes ch ty n ev' = false := by
  intro ops
  induction ops with
  | nil =>
    intro w0 base h j op' ev' hop'
    simp at hop'
  | cons op rest ih =>
    intro w0 base h j op' ev' hop' hev'
    simp only [awaitLoop] at h
    split at h
    · rename_i ev hev
      split at h
      · exact ReqResult.noConfusion h
      · rename_i hw
        cases j with
        | zero =>
          simp at hop'
          subst hop'
          simp only [List.take_zero, stepOps_nil] at hev'
          rw [hev] at hev'
          have hee : ev = ev' := Option.some.inj hev'
          subst hee
          exact eq_false_of_ne_true hw
        | succ j' =>
          exact ih _ _ h j' op' ev' (by simpa using hop')
            (by simpa [List.take_succ_cons] using hev')
    · rename_i hev
      cases j with
      | zero =>
        simp at hop'
        subst hop'
        simp only [List.take_zero, stepOps_nil] at hev'
        rw [hev] at hev'
        exact Option.noConfusion hev'
      | succ j' =>
        exact ih _ _ h j' op' ev' (by simpa using hop')
          (by simpa [List.take_succ_cons] using hev')

/-- Claim C5: `request_resource` returns without suspending exactly when
`get_resource` already yields a value (and with that very value);
otherwise it suspends and is resumed by the first operation whose
dispatched `resource_added` notification comes from a context of the
requester's chain and matches (resource name equal, requested type among
the container's types) — no earlier operation dispatches a matching
notification — and it then returns the result of retrying `get_resource`
once in the world at that point; with no matching notification it stays
suspended; it raises only what the initial `get_resource` itself raised;
and both a plain resource add and a factory registration qualify as
matching notifications, characterized by their arguments. -/
theorem c5_request_resource (fenv : Nat → Nat → Nat) (tyOf : Nat → Nat)
    (w : World) (cid ty : Nat) (n : String) (ops : List Op) :
    (∀ v, (requestResource fenv tyOf w cid ty n ops).1 = .immediate v ↔
      (getResource fenv tyOf w cid ty n).result = .ok (some v))
    ∧ (∀ k r, (requestResource fenv tyOf w cid ty n ops).1 = .resumed k r →
        (getResource fenv tyOf w cid ty n).result = .ok none
        ∧ (∃ op, ops[k]? = some op
            ∧ ∃ ev, (applyOp (stepOps w (ops.take k)) op).2 = some ev
              ∧ eventWakes (chain w cid) ty n ev = true
              ∧ r = (getResource fenv tyOf
                  (applyOp (stepOps w (ops.take k)) op).1 cid ty n).result)
        ∧ ∀ j, j < k → ∀ op' ev', ops[j]? = some op' →
            (applyOp (stepOps w (ops.take j)) op').2 = some ev' →
            eventWakes (chain w cid) ty n ev' = false)
    ∧ ((requestResource fenv tyOf w cid ty n ops).1 = .pending →
        ∀ j op' ev', ops[j]? = some op' →
          (applyOp (stepOps w (ops.take j)) op').2 = some ev' →
          eventWakes (chain w cid) ty n ev' = false)
    ∧ (∀ e, (requestResource fenv tyOf w cid ty n ops).1 = .raised e →
        (getResource fenv tyOf w cid ty n).result = .error e)
    ∧ (∀ w2 cid2 fid2 types2 n2 cattr2 w3 ev,
        applyOp w2 (.addFac cid2 fid2 types2 n2 cattr2) = (w3, some ev) →
        (eventWakes (chain w cid) ty n ev = true ↔
          cid2 ∈ chain w cid ∧ n2 = n ∧ ty ∈ types2))
    ∧ (∀ w2 cid2 value2 vty2 n2 cattr2 types2 w3 ev,
        applyOp w2 (.addRes cid2 value2 vty2 n2 cattr2 types2) = (w3, some ev) →
        (eventWakes (chain w cid) ty n ev = true ↔
          cid2 ∈ chain w cid ∧ n2 = n ∧
            ty ∈ (if types2.isEmpty then [vty2] else types2))) := by
  refine ⟨?_, ?_, ?_, ?_, ?_, ?_⟩
  · intro v
    simp only [requestResource]
    cases hg : (getResource fenv tyOf w cid ty n).result with
    | error e => simp
    | ok o =>
      cases o with
      | some u =>
        constructor
        · intro h
          injection h with hu
          rw [hu]
        · intro h
          have : u = v := by
            have := Except.ok.inj h
            exact Option.some.inj this
          rw [this]
      | none =>
        constructor
        · intro h
          rcases awaitLoop_shape fenv tyOf (chain w cid) cid ty n ops
              (getResource fenv tyOf w cid ty n).world 0 with hs | ⟨k, r, hs⟩
          · rw [hs] at h
            exact ReqResult.noConfusion h
          · rw [hs] at h
            exact ReqResult.noConfusion h
        · intro h
          exact absurd h (by simp)
  · intro k r h
    simp only [requestResource] at h
    cases hg : (getResource fenv tyOf w cid ty n).result with
    | error e =>
      rw [hg] at h
      exact ReqResult.noConfusion h
    | ok o =>
      cases o with
      | some u =>
        rw [hg] at h
        exact ReqResult.noConfusion h
      | none =>
        rw [hg] at h
        have hinert := getResource_none_inert fenv tyOf w cid ty n hg
        rw [hinert] at h
        have hsound := awaitLoop_resumed_sound fenv tyOf (chain w cid) cid ty n ops w 0 k r h
        refine ⟨rfl, ?_, ?_⟩
        · have := hsound.2.1
          simpa using this
        · intro j hj
          have := hsound.2.2 j (by simpa using hj)
          exact this
  · intro h
    simp only [requestResource] at h
    cases hg : (getResource fenv tyOf w cid ty n).result with
    | error e =>
      rw [hg] at h
      exact ReqResult.noConfusion h
    | ok o =>
      cases o with
      | some u =>
        rw [hg] at h
        exact ReqResult.noConfusion h
      | none =>
        rw [hg] at h
        have hinert := getResource_none_inert fenv tyOf w cid ty n hg
        rw [hinert] at h
        exact awaitLoop_pending_sound fenv tyOf (chain w cid) cid ty n ops w 0 h
  · intro e h
    simp only [requestResource] at h
    cases hg : (getResource fenv tyOf w cid ty n).result with
    | error e2 =>
      rw [hg] at h
      injection h with he
      rw [he]
    | ok o =>
      cases o with
      | some u =>
        rw [hg] at h
        exact ReqResult.noConfusion h
      | none =>
        rw [hg] at h
        rcases awaitLoop_shape fenv tyOf (chain w cid) cid ty n ops
            (getResource fenv tyOf w cid ty n).world 0 with hs | ⟨k, r, hs⟩
        · rw [hs] at h
          exact ReqResult.noConfusion h
        · rw [hs] at h
          exact ReqResult.noConfusion h
  · intro w2 cid2 fid2 types2 n2 cattr2 w3 ev h
    simp only [applyOp] at h
    cases herr : addFactoryErr w2 cid2 n2 cattr2 types2 with
    | some e =>
      rw [addFactory_error w2 cid2 fid2 types2 n2 cattr2 e herr] at h
      exact absurd (congrArg Prod.snd h) (by simp)
    | none =>
      rw [addFactory_ok w2 cid2 fid2 types2 n2 cattr2 herr] at h
      have hev : ev = (cid2, ⟨fid2, types2, n2, cattr2, true⟩) :=
        (Option.some.inj (congrArg Prod.snd h)).symm
      subst hev
      simp [eventWakes, and_assoc]
  · intro w2 cid2 value2 vty2 n2 cattr2 types2 w3 ev h
    simp only [applyOp] at h
    cases herr : addResourceErr w2 cid2 value2 n2 cattr2
        (if types2.isEmpty then [vty2] else types2) with
    | some e =>
      rw [addResource_error w2 cid2 value2 vty2 n2 cattr2 types2 e herr] at h
      exact absurd (congrArg Prod.snd h) (by simp)
    | none =>
      rw [addResource_ok w2 cid2 value2 vty2 n2 cattr2 types2 herr] at h
      have hev : ev = (cid2, ⟨value2.getD 0,
          if types2.isEmpty then [vty2] else types2, n2, cattr2, false⟩) :=
        (Option.some.inj (congrArg Prod.snd h)).symm
      subst hev
      simp [eventWakes, and_assoc]

/-- Witness for C5: on a world where the resource is already present,
`request_resource` returns immediately with it, by the theorem's first
conjunct; and on a child context with an initially missing resource it
resumes on the first matching add, by the second conjunct. -/
theorem c5_request_resource_witness :
    (requestResource (fun f c => 100 * f + c) (fun _ => 50)
        ⟨[{ resources := [((1, "default"), ⟨7, [1], "default", none, false⟩)] }], []⟩
        0 1 "default" []).1 = .immediate 7
    ∧ (getResource (fun f c => 100 * f + c) (fun _ => 50)
        ⟨[{}, { parent := some 0 }], []⟩ 1 1 "default").result = .ok none := by
  constructor
  · exact ((c5_request_resource (fun f c => 100 * f + c) (fun _ => 50)
      ⟨[{ resources := [((1, "default"), ⟨7, [1], "default", none, false⟩)] }], []⟩
      0 1 "default" []).1 7).mpr (by decide)
  · exact ((c5_request_resource (fun f c => 100 * f + c) (fun _ => 50)
      ⟨[{}, { parent := some 0 }], []⟩ 1 1 "default"
      [Op.addRes 0 (some 8) 1 "other" none [1], Op.addRes 0 (some 9) 1 "default" none [1]]).2.1
      1 (.ok (some 9)) (by decide)).1

/-- Claim C6: `close` on a not-yet-closed context sets the `closed`
flag, drops the teardown list, and produces the teardown call sequence
in exact reverse registration order, passing the terminating exception
precisely to the callbacks registered with `pass_exception=True`; the
call sequence is the same whatever callbacks raise (a raising callback
is caught and the iteration continues, so every registered callback
appears); `close` on an already-closed context fails with the state
error, and in particular a second `close` after a successful one fails
with the state error. -/
theorem c6_close_semantics (cbRaises : Nat → Bool) (w : World) (cid : Nat)
    (exc : Option Nat) :
    ((w.ctx cid).closed = false →
      close cbRaises w cid exc =
        (updCtx w cid (fun st => { st with closed := true, teardowns := [] }),
         .ok ((w.ctx cid).teardowns.reverse.map
            (fun cb => (cb.1, if cb.2 then exc else none, cbRaises cb.1)))))
    ∧ ((w.ctx cid).closed = true →
        close cbRaises w cid exc = (w, .error .stateError))
    ∧ (cid < w.ctxs.length → (w.ctx cid).closed = false →
        ∀ cb2 exc2, (close cb2 (close cbRaises w cid exc).1 cid exc2).2 =
          .error .stateError) := by
  refine ⟨?_, ?_, ?_⟩
  · intro h
    simp [close, h]
  · intro h
    simp [close, h]
  · intro hlt h cb2 exc2
    have h1 : (close cbRaises w cid exc).1 =
        updCtx w cid (fun st => { st with closed := true, teardowns := [] }) := by
      simp [close, h]
    rw [h1]
    have h2 : ((updCtx w cid
        (fun st => { st with closed := true, teardowns := [] })).ctx cid).closed = true := by
      rw [ctx_updCtx_self _ _ _ hlt]
    simp [close, h2]

/-- Witness for C6 at a concrete context with three teardown callbacks,
the middle one registered with `pass_exception=True` and raising. -/
theorem c6_close_semantics_witness :
    close (fun cb => cb = 2) ⟨[{ teardowns := [(1, false), (2, true), (3, false)] }], []⟩
        0 (some 42) =
      (updCtx ⟨[{ teardowns := [(1, false), (2, true), (3, false)] }], []⟩ 0
        (fun st => { st with closed := true, teardowns := [] }),
       .ok [(3, none, false), (2, some 42, true), (1, none, false)])
    ∧ (close (fun _ => false)
        (close (fun cb => cb = 2) ⟨[{ teardowns := [(1, false), (2, true), (3, false)] }], []⟩
          0 (some 42)).1 0 none).2 = .error .stateError := by
  have h := c6_close_semantics (fun cb => cb = 2)
    ⟨[{ teardowns := [(1, false), (2, true), (3, false)] }], []⟩ 0 (some 42)
  exact ⟨by rw [h.1 (by decide)]; decide, h.2.2 (by decide) (by decide) (fun _ => false) none⟩

/-- Claim C9 (amended): a context-attribute alias bound as a literal
attribute cannot be rebound by another `add_resource` on the same node,
and a factory alias cannot be rebound by another `add_resource_factory`
on the same node — in both cases the call fails with `ResourceConflict`
and the world (hence the original binding) is unchanged; and the two
binding operations do record their binding, so this applies to any
later attempt of the same kind. -/
theorem c9_attr_rebinding_same_kind (w : World) (c : Nat) :
    (∀ a v0 vty n types, validName n = true →
      (alookup a (w.ctx c).attrs).isSome = true →
      addResource w c (some v0) vty n (some a) types = (w, .error .resourceConflict))
    ∧ (∀ a fid n types, validName n = true → types.isEmpty = false →
        (alookup a (w.ctx c).factoriesByAttr).isSome = true →
        addResourceFactory w c fid types n (some a) = (w, .error .resourceConflict))
    ∧ (∀ a v0 vty n types w' rc, c < w.ctxs.length →
        addResource w c (some v0) vty n (some a) types = (w', .ok rc) →
        alookup a (w'.ctx c).attrs = some v0)
    ∧ (∀ a fid n types w' rc, c < w.ctxs.length →
        addResourceFactory w c fid types n (some a) = (w', .ok rc) →
        alookup a (w'.ctx c).factoriesByAttr = some rc) := by
  refine ⟨?_, ?_, ?_, ?_⟩
  · intro a v0 vty n types hn ha
    simp [addResource, addResourceErr, hn, ha]
  · intro a fid n types hn hne ha
    simp [addResourceFactory, addFactoryErr, hn, hne, ha]
  · intro a v0 vty n types w' rc hlt heq
    cases herr : addResourceErr w c (some v0) n (some a)
        (if types.isEmpty then [vty] else types) with
    | some e =>
      rw [addResource_error w c (some v0) vty n (some a) types e herr] at heq
      exact absurd (congrArg Prod.snd heq) (by simp)
    | none =>
      rw [addResource_ok w c (some v0) vty n (some a) types herr] at heq
      injection heq with hw hrc
      subst hw
      exact addResourceCommit_attrs w c v0 n a _ hlt
  · intro a fid n types w' rc hlt heq
    cases herr : addFactoryErr w c n (some a) types with
    | some e =>
      rw [addFactory_error w c fid types n (some a) e herr] at heq
      exact absurd (congrArg Prod.snd heq) (by simp)
    | none =>
      rw [addFactory_ok w c fid types n (some a) herr] at heq
      injection heq with hw hrc
      injection hrc with hrc2
      subst hw
      rw [← hrc2]
      exact addFactoryCommit_byattr w c fid n a types hlt

/-- Witness for C9's amended theorem at concrete inputs: a bound literal
attribute blocks a second literal binding, a bound factory alias blocks
a second factory binding. -/
theorem c9_attr_rebinding_same_kind_witness :
    addResource ⟨[{ attrs := [("a", 5)] }], []⟩ 0 (some 6) 1 "other" (some "a") [2] =
      (⟨[{ attrs := [("a", 5)] }], []⟩, .error .resourceConflict)
    ∧ addResourceFactory ⟨[{ factoriesByAttr := [("a", ⟨3, [2], "default", some "a", true⟩)] }], []⟩
        0 4 [3] "x" (some "a") =
      (⟨[{ factoriesByAttr := [("a", ⟨3, [2], "default", some "a", true⟩)] }], []⟩,
       .error .resourceConflict) := by
  constructor
  · exact (c9_attr_rebinding_same_kind ⟨[{ attrs := [("a", 5)] }], []⟩ 0).1
      "a" 6 1 "other" [2] (by decide) (by decide)
  · exact (c9_attr_rebinding_same_kind
      ⟨[{ factoriesByAttr := [("a", ⟨3, [2], "default", some "a", true⟩)] }], []⟩ 0).2.1
      "a" 4 "x" [3] (by decide) (by decide) (by decide)

/-- Claim C9 counterexample: on a fresh context, `add_resource` binds
the context attribute "a" as a literal attribute; a subsequent
`add_resource_factory` with the same `context_attr` nevertheless
succeeds, where the claim requires any later binding attempt by either
operation to fail with a conflict error — `add_resource_factory` checks
only `_resource_factories_by_context_attr` and never sees literal
attributes (and symmetrically `add_resource` uses `getattr_static`,
which never sees factory aliases). -/
theorem c9_counterexample :
    (addResource ⟨[{}], []⟩ 0 (some 5) 1 "default" (some "a") [1]).2 =
      .ok ⟨5, [1], "default", some "a", false⟩
    ∧ alookup "a" (((addResource ⟨[{}], []⟩ 0 (some 5) 1 "default" (some "a") [1]).1.ctx 0).attrs) =
      some 5
    ∧ (addResourceFactory (addResource ⟨[{}], []⟩ 0 (some 5) 1 "default" (some "a") [1]).1
        0 3 [2] "default" (some "a")).2 = .ok ⟨3, [2], "default", some "a", true⟩ := by
  decide

/-- Claim C3 (evidence of the divergence): the source's
`Context.add_resource` and `Context.add_resource_factory` never call
`Context._check_closed`, so on a context whose `closed` flag is set both
operations still succeed and mutate the context, where the claim (and
the docstring of `Context.close`) require a state error. -/
theorem c3_closed_context_add_not_rejected :
    ((⟨[{ closed := true }], []⟩ : World).ctx 0).closed = true
    ∧ (addResource ⟨[{ closed := true }], []⟩ 0 (some 3) 1 "default" none [1]).2 =
        .ok ⟨3, [1], "default", none, false⟩
    ∧ alookup (1, "default")
        (((addResource ⟨[{ closed := true }], []⟩ 0 (some 3) 1 "default" none [1]).1.ctx 0).resources) =
        some ⟨3, [1], "default", none, false⟩
    ∧ (addResourceFactory ⟨[{ closed := true }], []⟩ 0 9 [1] "default" none).2 =
        .ok ⟨9, [1], "default", none, true⟩ := by
  decide

end Asphalt

namespace AsphaltComponent

theorem mem_of_getElem? {α : Type} {l : List α} {i : Nat} {a : α}
    (h : l[i]? = some a) : a ∈ l := by
  obtain ⟨hlt, rfl⟩ := List.getElem?_eq_some.mp h
  exact List.getElem_mem hlt

theorem interleave_mem {α : Type} {ls : List (List α)} {out : List α}
    (h : NInterleave ls out) : ∀ a ∈ out, ∃ l ∈ ls, a ∈ l := by
  induction h with
  | nil ls h =>
    intro a ha
    exact absurd ha (List.not_mem_nil a)
  | cons ls i a tl out hget hrest ih =>
    intro b hb
    rcases List.mem_cons.mp hb with hb | hb
    · subst hb
      exact ⟨b :: tl, mem_of_getElem? hget, List.mem_cons_self b tl⟩
    · obtain ⟨l, hl, hbl⟩ := ih b hb
      rcases List.mem_or_eq_of_mem_set hl with hl' | hl'
      · exact ⟨l, hl', hbl⟩
      · subst hl'
        exact ⟨a :: l, mem_of_getElem? hget, List.mem_cons_of_mem a hbl⟩

theorem interleave_complete {α : Type} {ls : List (List α)} {out : List α}
    (h : NInterleave ls out) :
    ∀ (i : Nat) (l : List α), ls[i]? = some l → ∀ a ∈ l, a ∈ out := by
  induction h with
  | nil ls h =>
    intro i l hl a ha
    have : l = [] := h l (mem_of_getElem? hl)
    subst this
    exact absurd ha (List.not_mem_nil a)
  | cons ls i0 a tl out hget hrest ih =>
    intro i l hl b hb
    by_cases hi : i = i0
    · subst hi
      rw [hget] at hl
      have hl' : a :: tl = l := Option.some.inj hl
      subst hl'
      rcases List.mem_cons.mp hb with hb | hb
      · subst hb
        exact List.mem_cons_self b out
      · have hlt : i < ls.length := (List.getElem?_eq_some.mp hget).1
        have hset : (ls.set i tl)[i]? = some tl := List.getElem?_set_eq_of_lt tl hlt
        exact List.mem_cons_of_mem a (ih i tl hset b hb)
    · have hset : (ls.set i0 tl)[i]? = ls[i]? := List.getElem?_set_ne (fun he => hi he.symm)
      exact List.mem_cons_of_mem a (ih i l (hset.trans hl) b hb)

theorem ninterleave_nil_left {α : Type} (l : List α) : NInterleave [[], l] l := by
  induction l with
  | nil => exact .nil _ (by simp)
  | cons a l' ih => exact .cons _ 1 a l' l' rfl ih

theorem ninterleave_nil_right {α : Type} (l : List α) : NInterleave [l, []] l := by
  induction l with
  | nil => exact .nil _ (by simp)
  | cons a l' ih => exact .cons _ 0 a l' l' rfl ih

theorem ninterleave_two_left {α : Type} (l1 l2 : List α) :
    NInterleave [l1, l2] (l1 ++ l2) := by
  induction l1 with
  | nil => exact ninterleave_nil_left l2
  | cons a l1' ih => exact .cons _ 0 a l1' (l1' ++ l2) rfl ih

theorem ninterleave_two_right {α : Type} (l1 l2 : List α) :
    NInterleave [l1, l2] (l2 ++ l1) := by
  induction l2 with
  | nil => exact ninterleave_nil_right l1
  | cons b l2' ih => exact .cons _ 1 b l2' (l2' ++ l1) rfl ih

theorem startTrace_leaf (n : Nat) :
    StartTrace (.node n []) [.prepare n, .setStarting n, .startEvt n] :=
  StartTrace.mk n [] [] [] rfl
    (fun i h1 _ => absurd h1 (Nat.not_lt_zero i))
    (.nil [] (fun l hl => absurd hl (List.not_mem_nil l)))


/-- Claim C2: along every trace of the start pass of a component node,
`prepare()` runs first, the node then flips to `"starting"`, every event
of every direct child's start trace (the child's entire subtree,
recursively a start trace itself) lies strictly between the flip and the
node's own `start()`, which is the last event; the children's traces are
combined by an arbitrary interleaving (one shared structured-concurrency
scope), and for the sample two-child tree both sibling orders are
realizable, so siblings have no defined relative order. -/
theorem c2_start_pass_ordering :
    (∀ (c : CompTree) (t : List CEvent), StartTrace c t →
      ∃ mid ts, t = .prepare c.id :: .setStarting c.id :: (mid ++ [.startEvt c.id])
        ∧ ts.length = c.children.length
        ∧ (∀ i : Nat, ∀ h1 : i < c.children.length, ∀ h2 : i < ts.length,
            StartTrace (c.children.get ⟨i, h1⟩) (ts.get ⟨i, h2⟩))
        ∧ NInterleave ts mid
        ∧ (∀ e ∈ mid, ∃ l ∈ ts, e ∈ l)
        ∧ (∀ i : Nat, ∀ l : List CEvent, ts[i]? = some l → ∀ e ∈ l, e ∈ mid))
    ∧ StartTrace sampleTwoChildren
        [.prepare 0, .setStarting 0, .prepare 1, .setStarting 1, .startEvt 1,
         .prepare 2, .setStarting 2, .startEvt 2, .startEvt 0]
    ∧ StartTrace sampleTwoChildren
        [.prepare 0, .setStarting 0, .prepare 2, .setStarting 2, .startEvt 2,
         .prepare 1, .setStarting 1, .startEvt 1, .startEvt 0] := by
  refine ⟨?_, ?_, ?_⟩
  · intro c t h
    cases h with
    | mk n cs ts mid hlen hts hmix =>
      refine ⟨mid, ts, rfl, hlen, hts, hmix, ?_, ?_⟩
      · exact interleave_mem hmix
      · intro i l hl e he
        exact interleave_complete hmix i l hl e he
  · exact StartTrace.mk 0 [.node 1 [], .node 2 []]
      [[.prepare 1, .setStarting 1, .startEvt 1],
       [.prepare 2, .setStarting 2, .startEvt 2]]
      ([.prepare 1, .setStarting 1, .startEvt 1] ++
       [.prepare 2, .setStarting 2, .startEvt 2])
      rfl
      (fun i h1 h2 => by
        match i, h1, h2 with
        | 0, _, _ => exact startTrace_leaf 1
        | 1, _, _ => exact startTrace_leaf 2)
      (ninterleave_two_left _ _)
  · exact StartTrace.mk 0 [.node 1 [], .node 2 []]
      [[.prepare 1, .setStarting 1, .startEvt 1],
       [.prepare 2, .setStarting 2, .startEvt 2]]
      ([.prepare 2, .setStarting 2, .startEvt 2] ++
       [.prepare 1, .setStarting 1, .startEvt 1])
      rfl
      (fun i h1 h2 => by
        match i, h1, h2 with
        | 0, _, _ => exact startTrace_leaf 1
        | 1, _, _ => exact startTrace_leaf 2)
      (ninterleave_two_right _ _)

/-- Witness for C2: the ordering facts instantiated at the sample tree
and its first exhibited trace, via the theorem itself. -/
theorem c2_start_pass_ordering_witness :
    ∃ mid ts,
      ([.prepare 0, .setStarting 0, .prepare 1, .setStarting 1, .startEvt 1,
        .prepare 2, .setStarting 2, .startEvt 2, .startEvt 0] : List CEvent) =
        .prepare sampleTwoChildren.id :: .setStarting sampleTwoChildren.id ::
          (mid ++ [.startEvt sampleTwoChildren.id])
      ∧ ts.length = sampleTwoChildren.children.length
      ∧ (∀ i : Nat, ∀ h1 : i < sampleTwoChildren.children.length, ∀ h2 : i < ts.length,
          StartTrace (sampleTwoChildren.children.get ⟨i, h1⟩) (ts.get ⟨i, h2⟩))
      ∧ NInterleave ts mid
      ∧ (∀ e ∈ mid, ∃ l ∈ ts, e ∈ l)
      ∧ (∀ i : Nat, ∀ l : List CEvent, ts[i]? = some l → ∀ e ∈ l, e ∈ mid) :=
  c2_start_pass_ordering.1 sampleTwoChildren
    [.prepare 0, .setStarting 0, .prepare 1, .setStarting 1, .startEvt 1,
     .prepare 2, .setStarting 2, .startEvt 2, .startEvt 0]
    c2_start_pass_ordering.2.1

/-- Claim C8 (amended): while a `ComponentContext` is `preparing`, every
resource or factory added is stored under the fixed name `"default"` —
whatever name was supplied — and nothing is propagated to the parent;
once `starting`, a resource is additionally stored one level up via the
explicit base-class call, under the given name or, when none was given,
the component's alias-derived default resource name; a factory is
additionally registered on the parent through the dynamically dispatched
call with the name passed through unchanged — so an omitted factory name
propagates as `"default"`, not as the alias-derived name. -/
theorem c8_component_context_resource_naming (w : CWorld) (cid : Nat) :
    ((w.ctx cid).status = .preparing →
      ∀ name0 v, ccAddResource w cid name0 v = baseAddResource w cid (some "default") v)
    ∧ ((w.ctx cid).status = .preparing → ∀ fuel name0 fid,
        ccAddFactory w (fuel + 1) cid name0 fid = baseAddFactory w cid (some "default") fid)
    ∧ (∀ p, (w.ctx cid).status = .starting → (w.ctx cid).parent = some p →
        ∀ name0 v, ccAddResource w cid name0 v =
          baseAddResource (baseAddResource w cid name0 v) p
            (some (name0.getD (w.ctx cid).defaultResourceName)) v)
    ∧ (∀ p fuel, (w.ctx cid).status = .starting → (w.ctx cid).parent = some p →
        (w.ctx p).isComponent = false →
        ∀ name0 fid, ccAddFactory w (fuel + 1) cid name0 fid =
          baseAddFactory (baseAddFactory w cid name0 fid) p name0 fid) := by
  refine ⟨?_, ?_, ?_, ?_⟩
  · intro hst name0 v
    cases hp : (w.ctx cid).parent with
    | none => simp [ccAddResource, hst, hp]
    | some p => simp [ccAddResource, hst, hp]
  · intro hst fuel name0 fid
    cases hp : (w.ctx cid).parent with
    | none => simp [ccAddFactory, hst, hp]
    | some p => simp [ccAddFactory, hst, hp]
  · intro p hst hp name0 v
    simp [ccAddResource, hst, hp]
  · intro p fuel hst hp hbase name0 fid
    simp [ccAddFactory, hst, hp, hbase]

/-- Witness for C8's amended theorem: a component context in each status
with a concrete alias-derived default name. -/
theorem c8_component_context_resource_naming_witness :
    ccAddResource ⟨[{ isComponent := false },
        { parent := some 0, status := .preparing, defaultResourceName := "bar" }]⟩
        1 (some "x") 5 =
      baseAddResource ⟨[{ isComponent := false },
        { parent := some 0, status := .preparing, defaultResourceName := "bar" }]⟩
        1 (some "default") 5
    ∧ ccAddResource ⟨[{ isComponent := false },
        { parent := some 0, status := .starting, defaultResourceName := "bar" }]⟩
        1 none 5 =
      baseAddResource (baseAddResource ⟨[{ isComponent := false },
        { parent := some 0, status := .starting, defaultResourceName := "bar" }]⟩
        1 none 5) 0 (some "bar") 5
    ∧ ccAddFactory ⟨[{ isComponent := false },
        { parent := some 0, status := .starting, defaultResourceName := "bar" }]⟩
        2 1 none 7 =
      baseAddFactory (baseAddFactory ⟨[{ isComponent := false },
        { parent := some 0, status := .starting, defaultResourceName := "bar" }]⟩
        1 none 7) 0 none 7 := by
  refine ⟨?_, ?_, ?_⟩
  · exact (c8_component_context_resource_naming
      ⟨[{ isComponent := false },
        { parent := some 0, status := .preparing, defaultResourceName := "bar" }]⟩ 1).1
      (by decide) (some "x") 5
  · exact (c8_component_context_resource_naming
      ⟨[{ isComponent := false },
        { parent := some 0, status := .starting, defaultResourceName := "bar" }]⟩ 1).2.2.1
      0 (by decide) (by decide) none 5
  · exact (c8_component_context_resource_naming
      ⟨[{ isComponent := false },
        { parent := some 0, status := .starting, defaultResourceName := "bar" }]⟩ 1).2.2.2
      0 1 (by decide) (by decide) (by decide) none 7

/-- Claim C8 counterexample: a starting `ComponentContext` (context 1,
alias-derived default resource name `"bar"`, parent the plain base
context 0) registers a factory with no explicit name.  The code passes
the name through unchanged to the parent's `add_resource_factory`, so
the parent's entry lands under `"default"`, not under the alias-derived
`"bar"` the claim requires. -/
theorem c8_counterexample :
    ((ccAddFactory ⟨[{ isComponent := false },
        { parent := some 0, status := .starting, defaultResourceName := "bar" }]⟩
        2 1 none 7).ctx 0).fac = [("default", 7)]
    ∧ (("bar", 7) ∉ ((ccAddFactory ⟨[{ isComponent := false },
        { parent := some 0, status := .starting, defaultResourceName := "bar" }]⟩
        2 1 none 7).ctx 0).fac) := by
  decide

end AsphaltComponent
